import Mathlib

/-!
Verification of the search / relevance-ranking engine of the Croatian
Working Law Fact Checker (client-side multilingual full-text search).

The development shallowly embeds the engine's JavaScript source:
  * the database manager (`searchArticles`, `_performTextSearch`,
    `_calculateRelevanceScore`, `updateRelevanceScore`),
  * the language manager (`detectLanguage`),
  * the relevance-scoring / adaptive-learning module
    (`updateArticleScoring`, `performAdaptiveLearning`).

Strings are modelled as `List Char`; JS numbers appearing in scores are
modelled exactly: match counts as `Nat`, relevance scores as `ℚ`
(the float literals 0.7, 0.3, 0.95 become the corresponding rationals),
and NaN-propagating arithmetic as `Option ℚ` with `none` for NaN.
Real-time quantities (Date.now, searchTime, the dwell-time confidence
computation) enter only as parameters.  DOM access, localStorage
persistence and console logging are external effects with no bearing on
the verified statements and are omitted.
-/

/-! ## Text primitives -/

/-- ASCII lowercasing of one character, modelling `toLowerCase` on the
character sets exercised here (the lowercase diacritics of the language
patterns are fixed points). -/
def lowChar (c : Char) : Char := c.toLower

/-- Lowercase a JS string (`String.prototype.toLowerCase`). -/
def lowL (s : List Char) : List Char := s.map lowChar

/-- `String.prototype.trim`: strip leading and trailing whitespace. -/
def trimL (s : List Char) : List Char :=
  ((s.dropWhile Char.isWhitespace).reverse.dropWhile Char.isWhitespace).reverse

/-- Worker for `splitWsL`; `cur` is the reversed current token. -/
def splitWsAux : List Char → List Char → List (List Char)
  | [], cur => if cur = [] then [] else [cur.reverse]
  | c :: rest, cur =>
    if c.isWhitespace then
      if cur = [] then splitWsAux rest [] else cur.reverse :: splitWsAux rest []
    else splitWsAux rest (c :: cur)

/-- `s.split(/\s+/)` on an already trimmed string: the non-empty
whitespace-separated tokens, in order. -/
def splitWsL (s : List Char) : List (List Char) := splitWsAux s []

/-- `Array.prototype.join(' ')`: interleave a single space between the
given strings. -/
def joinWordsL : List (List Char) → List Char
  | [] => []
  | [w] => w
  | w :: w2 :: ws => w ++ ' ' :: joinWordsL (w2 :: ws)

/-- `String.prototype.includes`: `sub` occurs contiguously in `text`. -/
def includesL (text sub : List Char) : Bool :=
  sub.isPrefixOf text ||
    match text with
    | [] => false
    | _ :: rest => includesL rest sub

/-- Worker for `countOcc` over a non-empty pattern.  After a match the
scan resumes past the matched text, so the `fuel` argument — the length of
the remaining text at the outset — strictly bounds the recursion and is
never exhausted. -/
def countOccAux (pat : List Char) : List Char → Nat → Nat
  | _, 0 => 0
  | [], _ + 1 => 0
  | c :: rest, fuel + 1 =>
    if pat.isPrefixOf (c :: rest) then
      1 + countOccAux pat ((c :: rest).drop pat.length) fuel
    else
      countOccAux pat rest fuel

/-- Number of matches of the literal pattern `pat` found by a global
regex scan (`text.match(new RegExp(pat, 'g'))`): leftmost,
non-overlapping.  An empty pattern matches at every position. -/
def countOcc (pat : List Char) (text : List Char) : Nat :=
  if pat = [] then text.length + 1
  else countOccAux pat text text.length

/-! ## A restricted model of JS `RegExp` compilation

`_calculateRelevanceScore` builds `new RegExp(word, 'g')` from raw query
words.  The constructor throws a `SyntaxError` on ill-formed patterns; the
case needed below is an unmatched parenthesis (e.g. the pattern `(` throws
"Unterminated group", `)` throws "Unmatched ')'", and a trailing lone
backslash throws as well).  `parenScanErr` recognises exactly these
errors; other invalid patterns are not flagged (an under-approximation of
the JS error set).  For patterns free of regex metacharacters the compiled
regex denotes the literal string, so the match count is `countOcc`; the
verified statements only exercise `jsRegexCount` on metacharacter-free
patterns and on patterns rejected by `parenScanErr`. -/

/-- The characters with special meaning in a JS regular expression. -/
def isRegexMeta (c : Char) : Bool :=
  c = '(' || c = ')' || c = '[' || c = ']' || c = '{' || c = '}' ||
  c = '*' || c = '+' || c = '?' || c = '.' || c = '\\' ||
  c = '^' || c = '$' || c = '|'

/-- A pattern that compiles to a literal-string regex: no metacharacters. -/
def regexSafe (s : List Char) : Bool := s.all (fun c => !isRegexMeta c)

/-- Scan for unmatched parentheses / a trailing backslash, the
`SyntaxError`s of `new RegExp` relevant here; `d` is the open-group depth. -/
def parenScanErr : List Char → Nat → Bool
  | [], d => d ≠ 0
  | c :: rest, d =>
    if c = '\\' then
      match rest with
      | [] => true
      | _ :: rest2 => parenScanErr rest2 d
    else if c = '(' then parenScanErr rest (d + 1)
    else if c = ')' then
      match d with
      | 0 => true
      | d' + 1 => parenScanErr rest d'
    else parenScanErr rest d

/-- `(text.match(new RegExp(pat, 'g')) || []).length`, with the thrown
`SyntaxError` of an ill-formed pattern surfaced as `.error`. -/
def jsRegexCount (pat text : List Char) : Except Unit Nat :=
  if parenScanErr pat 0 then .error () else .ok (countOcc pat text)

/-! ## Data model -/

/-- `userFeedback` counters of an article. -/
structure UserFeedback where
  helpful : Nat
  notHelpful : Nat
deriving DecidableEq, Repr

/-- An article record of the corpus (the fields consumed by the engine). -/
structure Article where
  id : List Char
  title : List Char
  content : List Char
  category : List Char
  keywords : List (List Char)
  language : List Char
  originalId : Option (List Char)
  relevanceScore : ℚ
  userFeedback : UserFeedback
deriving DecidableEq, Repr

/-- The per-category translation keyword dictionaries
(`this.data.translations`): category → language → term list.  The deployed
array-shaped JSON database yields `none`; the extractor's object-shaped
database carries the dictionary. -/
abbrev TransDict := List (List Char × List (List Char × List (List Char)))

/-- Association-list lookup (the `Map.get` / property access pattern). -/
def assocLookup {α : Type} (l : List (List Char × α)) (k : List Char) : Option α :=
  (l.find? (fun p => p.fst = k)).map (·.snd)

/-! ## Tokenizer / Scorer (`_calculateRelevanceScore`) -/

/-- The `+3`-per-category translation-keyword bonus for one query word:
for each category whose term list for the requested language contains
`word` as a substring, add 3 (source: `DatabaseManager._calculateRelevanceScore`). -/
def translationBonus (trans : Option TransDict) (language : List Char)
    (word : List Char) : Nat :=
  match trans with
  | none => 0
  | some d =>
    (d.map (fun p =>
      let terms := (assocLookup p.snd language).getD []
      if terms.any (fun t => includesL t word) then 3 else 0)).sum

/-- The score contribution of one query word inside the
`queryWords.forEach` loop of `_calculateRelevanceScore`: weighted
occurrence counts plus — for multi-word queries — the exact-phrase check,
which the source performs anew on every loop iteration. -/
def wordScore (trans : Option TransDict) (language : List Char)
    (titleText contentText keywordText : List Char)
    (queryWords : List (List Char)) (word : List Char) : Except Unit Nat := do
  let titleMatches ← jsRegexCount word titleText
  let keywordMatches ← jsRegexCount word keywordText
  let contentMatches ← jsRegexCount word contentText
  let phrase := joinWordsL queryWords
  let phraseBonus :=
    if 1 < queryWords.length then
      (if includesL titleText phrase then 20 else 0) +
        (if includesL contentText phrase then 10 else 0)
    else 0
  return titleMatches * 10 + keywordMatches * 5 + contentMatches * 1 +
    phraseBonus + translationBonus trans language word

/-- `DatabaseManager._calculateRelevanceScore(article, queryWords, language)`.
A regex `SyntaxError` raised for a query word propagates as `.error`. -/
def calculateRelevanceScore (trans : Option TransDict) (article : Article)
    (queryWords : List (List Char)) (language : List Char) : Except Unit Nat := do
  let titleText := lowL article.title
  let contentText := lowL article.content
  let keywordText := lowL (joinWordsL article.keywords)
  queryWords.foldlM
    (fun score w => do
      let s ← wordScore trans language titleText contentText keywordText queryWords w
      return score + s)
    0

/-! ## Search pipeline (`_performTextSearch`, `searchArticles`) -/

/-- One entry of a result list.  `_performTextSearch` pushes
`{...article, searchScore, highlightedContent, highlightedTitle}`; the
empty-query branch of `searchArticles` returns the article objects
themselves, which carry no `searchScore` property — modelled by `none`.
The two `highlighted*` fields are display-only derivatives of the article
text and are not consumed by any verified statement; they are omitted. -/
structure SearchResult where
  article : Article
  searchScore : Option Nat
deriving DecidableEq, Repr

/-- Reading the `crossLanguageMatch` property of a result object in
`createResultCard` (search.js).  No code path in the repository ever
assigns this property — `_performTextSearch` spreads the raw article
fields plus `searchScore` and the highlight fields only, and the corpus
articles written by the extractor carry no such field — so the property
access yields `undefined`, which is falsy. -/
def SearchResult.crossLanguageMatchRead (_ : SearchResult) : Bool := false

/-- Stable insertion used by `sortStable`: place `x` after every already
placed element `y` with `le y x` (i.e. `y` sorts before or ties `x`). -/
def insertStable {α : Type} (le : α → α → Bool) (x : α) : List α → List α
  | [] => [x]
  | y :: ys => if le y x then y :: insertStable le x ys else x :: y :: ys

/-- `Array.prototype.sort(comparator)`, which is stable (ECMAScript 2019):
for the total preorders induced by the numeric comparators used here, the
stable sorted permutation is unique, so processing the elements left to
right and inserting each after all kept-ahead elements reproduces it. -/
def sortStable {α : Type} (le : α → α → Bool) (l : List α) : List α :=
  l.foldl (fun acc x => insertStable le x acc) []

/-- The comparator-induced order of the result sort in
`_performTextSearch`: descending by `searchScore * 0.7 +
relevanceScore * 0.3` (`Array.prototype.sort` is stable, so ties keep
their relative order). -/
def textLe (a b : SearchResult) : Bool :=
  ((b.searchScore.getD 0 : ℚ) * 0.7 + b.article.relevanceScore * 0.3) ≤
    ((a.searchScore.getD 0 : ℚ) * 0.7 + a.article.relevanceScore * 0.3)

/-- `DatabaseManager._performTextSearch(articles, query, language)`:
score every article, keep strictly positive scores, sort by the combined
relevance comparator.  A regex `SyntaxError` thrown while scoring
propagates out of the `forEach`, aborting the whole search. -/
def performTextSearch (trans : Option TransDict) (articles : List Article)
    (query : List Char) (language : List Char) :
    Except Unit (List SearchResult) := do
  let queryWords := splitWsL (trimL (lowL query))
  let results ← articles.foldlM
    (fun acc article => do
      let score ← calculateRelevanceScore trans article queryWords language
      return if 0 < score then acc ++ [⟨article, some score⟩] else acc)
    ([] : List SearchResult)
  return sortStable textLe results

/-- The result envelope returned by `searchArticles` (the `searchTime`
field, a wall-clock measurement, is omitted). -/
structure SearchEnvelope where
  query : List Char
  results : List SearchResult
  total : Nat
  offset : Nat
  limit : Nat
  hasMore : Bool
  language : List Char
  category : List Char
deriving DecidableEq, Repr

/-- The parameters of one `searchArticles` call. -/
structure SearchParams where
  query : List Char
  category : List Char
  language : List Char
  limit : Nat
  offset : Nat
deriving DecidableEq, Repr

/-- The mutable state of the `DatabaseManager` singleton after
initialization: the shared corpus array `this.data.articles` (order
significant — the empty-query branch sorts it in place), the category
index built once at load time (article references modelled by ids
resolved against the current corpus; ids are unique per the data model),
the optional translation dictionaries, and the query cache
`this.searchCache`.  The per-category memo `this.cache` stores shallow
copies whose entries alias the same article objects; it is observationally
equivalent to re-filtering and is not modelled separately. -/
structure DB where
  articles : List Article
  catIndex : List (List Char × List (List Char))
  translations : Option TransDict
  searchCache : List (List Char × SearchEnvelope)
deriving DecidableEq, Repr

/-- `_initializeSearchIndex`: group article ids by category in corpus
order. -/
def buildCategoryIndex (articles : List Article) :
    List (List Char × List (List Char)) :=
  articles.foldl
    (fun idx a =>
      if idx.any (fun p => p.fst = a.category) then
        idx.map (fun p => if p.fst = a.category then (p.fst, p.snd ++ [a.id]) else p)
      else idx ++ [(a.category, [a.id])])
    []

/-- Fresh engine state over a loaded corpus. -/
def DB.init (articles : List Article) (trans : Option TransDict) : DB :=
  ⟨articles, buildCategoryIndex articles, trans, []⟩

/-- `getArticlesByCategory`: the category-index entries resolved against
the current corpus (an unknown category yields the empty list). -/
def getArticlesByCategory (db : DB) (category : List Char) : List Article :=
  ((assocLookup db.catIndex category).getD []).filterMap
    (fun i => db.articles.find? (fun a => a.id = i))

/-- The query-cache key
`` `search_${query}_${category}_${language}_${limit}_${offset}` ``. -/
def cacheKey (p : SearchParams) : List Char :=
  "search_".data ++ p.query ++ '_' :: p.category ++ '_' :: p.language ++
    '_' :: (toString p.limit).data ++ '_' :: (toString p.offset).data

/-- The comparator-induced order of the empty-query sort in
`searchArticles`: descending by `relevanceScore`, stable. -/
def relevLe (a b : Article) : Bool := b.relevanceScore ≤ a.relevanceScore

/-- `Array.prototype.slice(offset, offset + limit)` for `0 ≤ offset`. -/
def jsSlice {α : Type} (l : List α) (offset limit : Nat) : List α :=
  (l.drop offset).take limit

/-- The cache-miss body of `searchArticles`: filter by category, branch on
the trimmed query, slice, build the envelope (note the source computes
`total` and `hasMore` from the already-sliced `results`), store the
envelope in the query cache, and — in the empty-query case with category
`'all'` — leave the corpus array sorted in place. -/
def computeSearch (db : DB) (p : SearchParams) :
    Except Unit (SearchEnvelope × DB) :=
  let key := cacheKey p
  let articles :=
    if p.category = "all".data then db.articles else getArticlesByCategory db p.category
  if trimL p.query = [] then
    let sortedArticles := sortStable relevLe articles
    let results := (jsSlice sortedArticles p.offset p.limit).map
      (fun a => ({ article := a, searchScore := none } : SearchResult))
    let env : SearchEnvelope :=
      ⟨p.query, results, results.length, p.offset, p.limit,
        decide (p.offset + p.limit < results.length), p.language, p.category⟩
    .ok (env,
      { db with
          articles := if p.category = "all".data then sortedArticles else db.articles,
          searchCache := (key, env) :: db.searchCache })
  else do
    let matched ← performTextSearch db.translations articles p.query p.language
    let results := jsSlice matched p.offset p.limit
    let env : SearchEnvelope :=
      ⟨p.query, results, results.length, p.offset, p.limit,
        decide (p.offset + p.limit < results.length), p.language, p.category⟩
    return (env, { db with searchCache := (key, env) :: db.searchCache })

/-- `DatabaseManager.searchArticles({query, category, language, limit,
offset})`: serve from the query cache when the key is present, otherwise
compute and cache. -/
def searchArticles (db : DB) (p : SearchParams) :
    Except Unit (SearchEnvelope × DB) :=
  match assocLookup db.searchCache (cacheKey p) with
  | some env => .ok (env, db)
  | none => computeSearch db p

/-! ## Feedback ingestion (`updateRelevanceScore`) -/

/-- The mutation `updateRelevanceScore` applies to the resolved article:
bump the feedback counter, then recompute
`relevanceScore = 1.0 + (helpfulRatio * 2 - 1)` when any feedback exists. -/
def applyFeedback (a : Article) (isHelpful : Bool) : Article :=
  let fb : UserFeedback :=
    if isHelpful then ⟨a.userFeedback.helpful + 1, a.userFeedback.notHelpful⟩
    else ⟨a.userFeedback.helpful, a.userFeedback.notHelpful + 1⟩
  let totalFeedback := fb.helpful + fb.notHelpful
  let score :=
    if 0 < totalFeedback then
      1 + (((fb.helpful : ℚ) / (totalFeedback : ℚ)) * 2 - 1)
    else a.relevanceScore
  { a with userFeedback := fb, relevanceScore := score }

/-- `DatabaseManager.updateRelevanceScore(articleId, isHelpful)`: resolve
the article through the id map (an unknown id returns immediately),
mutate its feedback and score, and clear the query cache in full.  The
localStorage write is an external effect and is omitted. -/
def updateRelevanceScore (db : DB) (articleId : List Char) (isHelpful : Bool) : DB :=
  if db.articles.any (fun a => a.id = articleId) then
    { db with
        articles := db.articles.map
          (fun a => if a.id = articleId then applyFeedback a isHelpful else a),
        searchCache := [] }
  else db

/-! ## Adaptive scoring (`RelevanceScoring`)

JS number arithmetic involving `NaN` is modelled by `Option ℚ`, `none`
standing for `NaN`: every arithmetic operation propagates `NaN`, and every
comparison with `NaN` is false. -/

/-- A JS number: a rational, or `NaN`. -/
abbrev JSNum := Option ℚ

/-- JS `+` (NaN-propagating). -/
def jsAdd : JSNum → JSNum → JSNum
  | some a, some b => some (a + b)
  | _, _ => none

/-- JS `-` (NaN-propagating; in particular `Date.now() - undefined` is
`NaN`). -/
def jsSub : JSNum → JSNum → JSNum
  | some a, some b => some (a - b)
  | _, _ => none

/-- JS `*` (NaN-propagating). -/
def jsMul : JSNum → JSNum → JSNum
  | some a, some b => some (a * b)
  | _, _ => none

/-- JS `/` restricted to the uses below, whose divisors are nonzero
constants or guarded positive; a `NaN` operand gives `NaN`. -/
def jsDiv : JSNum → JSNum → JSNum
  | some a, some b => if b = 0 then none else some (a / b)
  | _, _ => none

/-- `Math.pow` as used below: a `NaN` exponent gives `NaN` (except the
exponent 0); exact rational powers for integer exponents.  The only
exponent reached in the verified statements is `NaN`. -/
def jsPow : JSNum → JSNum → JSNum
  | _, none => none
  | none, some e => if e = 0 then some 1 else none
  | some b, some e => if e.den = 1 then some (b ^ e.num) else none

/-- JS `x > 0`; false when `x` is `NaN`. -/
def jsGtZero : JSNum → Bool
  | some q => 0 < q
  | none => false

/-- The search context attached to feedback events. -/
structure SearchContext where
  query : List Char
  category : List Char
deriving DecidableEq, Repr

/-- The `weightedFeedback` record pushed by
`RelevanceScoring.updateArticleScoring`:
`{ value: feedback.isHelpful ? 1 : -1, weight: feedback.confidence,
context: feedback.searchContext }`.  Note that it carries no `timestamp`
property. -/
structure WeightedFeedback where
  value : Int
  weight : ℚ
  context : Option SearchContext
deriving DecidableEq, Repr

/-- Reading `feedback.timestamp` in `performAdaptiveLearning` on a stored
`weightedFeedback` record: the property does not exist on these records,
so the access yields `undefined`, which numeric arithmetic coerces to
`NaN`. -/
def WeightedFeedback.jsTimestamp (_ : WeightedFeedback) : JSNum := none

/-- One incoming feedback event as assembled by
`RelevanceScoring.processFeedback` (its `timestamp: Date.now()` and the
dwell-time-derived `confidence` enter as data). -/
structure FeedbackEvent where
  articleId : List Char
  isHelpful : Bool
  confidence : ℚ
  timestamp : ℚ
  context : Option SearchContext
deriving DecidableEq, Repr

/-- `this.decayFactor`. -/
def decayFactor : ℚ := 0.95

/-- `this.minFeedbackThreshold`. -/
def minFeedbackThreshold : Nat := 3

/-- `24 * 60 * 60 * 1000`, the day-length divisor of the decay exponent. -/
def msPerDay : ℚ := 24 * 60 * 60 * 1000

/-- The decayed weight of one stored feedback record:
`feedback.weight * Math.pow(decayFactor, (Date.now() - feedback.timestamp)
/ (24*60*60*1000))`, `now` standing for `Date.now()`. -/
def decayedWeight (now : ℚ) (fb : WeightedFeedback) : JSNum :=
  jsMul (some fb.weight)
    (jsPow (some decayFactor) (jsDiv (jsSub (some now) fb.jsTimestamp) (some msPerDay)))

/-- `RelevanceScoring.performAdaptiveLearning(articleId, feedbackHistory)`:
accumulate decayed weights and the weighted sum of signed values; when
`totalWeight > 0`, the new adaptive score `weightedSum / totalWeight` is
stored, otherwise nothing is updated (`none`). -/
def performAdaptiveLearning (now : ℚ) (history : List WeightedFeedback) :
    Option JSNum :=
  let totalWeight := history.foldl (fun acc fb => jsAdd acc (decayedWeight now fb)) (some 0)
  let weightedSum := history.foldl
    (fun acc fb => jsAdd acc (jsMul (some (fb.value : ℚ)) (decayedWeight now fb))) (some 0)
  if jsGtZero totalWeight then some (jsDiv weightedSum totalWeight) else none

/-- The session-scoped state touched by `updateArticleScoring`:
`sessionData.articleFeedback` and the `adaptiveScores` map. -/
structure ScoringState where
  articleFeedback : List (List Char × List WeightedFeedback)
  adaptiveScores : List (List Char × JSNum)
deriving DecidableEq, Repr

/-- Association-list update (set or append). -/
def assocSet {α : Type} (l : List (List Char × α)) (k : List Char) (v : α) :
    List (List Char × α) :=
  if l.any (fun p => p.fst = k) then
    l.map (fun p => if p.fst = k then (k, v) else p)
  else l ++ [(k, v)]

/-- `RelevanceScoring.updateArticleScoring(feedback)`: push the weighted
feedback onto the article's history and, once the history reaches
`minFeedbackThreshold`, run `performAdaptiveLearning`, storing its result
in `adaptiveScores` when it produces one. -/
def updateArticleScoring (now : ℚ) (st : ScoringState) (fb : FeedbackEvent) :
    ScoringState :=
  let wfb : WeightedFeedback :=
    ⟨if fb.isHelpful then 1 else -1, fb.confidence, fb.context⟩
  let hist := (assocLookup st.articleFeedback fb.articleId).getD [] ++ [wfb]
  let st1 : ScoringState :=
    ⟨assocSet st.articleFeedback fb.articleId hist, st.adaptiveScores⟩
  if minFeedbackThreshold ≤ hist.length then
    match performAdaptiveLearning now hist with
    | some v => ⟨st1.articleFeedback, assocSet st1.adaptiveScores fb.articleId v⟩
    | none => st1
  else st1

/-! ## Language detection (`LanguageManager.detectLanguage`) -/

/-- The detection patterns of one language. -/
structure LangPattern where
  words : List (List Char)
  chars : List Char
  commonWords : List (List Char)

/-- `this.supportedLanguages`. -/
def supportedLanguages : List (List Char) := ["hr".data, "en".data, "es".data]

/-- `this.languagePatterns.hr`. -/
def hrPattern : LangPattern where
  words :=
    ["članak", "radnik", "radnica", "poslodavac", "ugovor", "radu", "rada",
     "posao", "posla", "zaposlavanje", "zaposlenik", "zaposlenica", "otkaz",
     "otkazuje", "prekida", "godišnji", "odmor", "dopust", "bolovanje",
     "bolovan", "plaća", "plaće", "naknada", "naknade", "satnica", "radni",
     "radna", "radno", "vrijeme", "vremena", "smjena", "smjene",
     "prekovremeni", "noćni", "vikend", "praznici"].map String.data
  chars := ['č', 'ć', 'ž', 'š', 'đ']
  commonWords :=
    ["i", "u", "na", "za", "od", "do", "iz", "sa", "po", "pri", "kroz",
     "je", "su", "se"].map String.data

/-- `this.languagePatterns.en`. -/
def enPattern : LangPattern where
  words :=
    ["employment", "employee", "employer", "contract", "work", "job",
     "labor", "labour", "termination", "dismissal", "firing", "layoff",
     "vacation", "holiday", "leave", "salary", "wage", "wages",
     "compensation", "overtime", "hours", "shift", "sick", "medical",
     "benefits", "annual", "working", "time"].map String.data
  chars := []
  commonWords :=
    ["the", "and", "or", "of", "to", "in", "for", "with", "by", "from",
     "is", "are", "was"].map String.data

/-- `this.languagePatterns.es`. -/
def esPattern : LangPattern where
  words :=
    ["empleo", "empleado", "empleada", "empleador", "contrato", "trabajo",
     "laboral", "terminación", "despido", "cese", "vacaciones", "días",
     "libres", "permiso", "salario", "sueldo", "compensación", "horas",
     "extras", "turno", "enfermedad", "médico", "beneficios", "anual",
     "trabajador", "trabajadora"].map String.data
  chars := ['ñ', 'á', 'é', 'í', 'ó', 'ú']
  commonWords :=
    ["el", "la", "y", "o", "de", "en", "por", "para", "con", "es", "son",
     "está"].map String.data

/-- `this.languagePatterns`. -/
def languagePatterns (lang : List Char) : LangPattern :=
  if lang = "hr".data then hrPattern
  else if lang = "en".data then enPattern
  else if lang = "es".data then esPattern
  else ⟨[], [], []⟩

/-- The score `detectLanguage` accumulates for one language over the
normalized text: 10 per occurrence of a language-specific character
(a single-character global regex match), 5 per vocabulary word contained
in the text (`normalizedText.includes(word)` — substring containment),
and 1 per text token that equals a common word. -/
def langScore (lang : List Char) (normalizedText : List Char) : Nat :=
  let p := languagePatterns lang
  let charScore := p.chars.foldl (fun s c => s + countOcc [c] normalizedText * 10) 0
  let wordsScore := p.words.foldl
    (fun s w => if includesL normalizedText w then s + 5 else s) charScore
  (splitWsL normalizedText).foldl
    (fun s tw => if p.commonWords.any (fun cw => cw = tw) then s + 1 else s) wordsScore

/-- The final scan of `detectLanguage`: starting from
`detectedLang = currentLanguage, maxScore = 0`, replace both whenever a
language's score strictly exceeds the running maximum (iteration order
`hr`, `en`, `es`). -/
def pickDetected (cur : List Char) (normalizedText : List Char) :
    List Char × Nat :=
  supportedLanguages.foldl
    (fun acc lang =>
      if acc.2 < langScore lang normalizedText then (lang, langScore lang normalizedText)
      else acc)
    (cur, 0)

/-- `LanguageManager.detectLanguage(text)` with the singleton's
`currentLanguage` passed explicitly: short texts keep the current
language; otherwise the max-scoring language is returned when its score
exceeds the significance threshold 2, else the current language. -/
def detectLanguage (cur : List Char) (text : List Char) : List Char :=
  if text = [] ∨ (trimL text).length < 3 then cur
  else
    let normalizedText := trimL (lowL text)
    let (detectedLang, maxScore) := pickDetected cur normalizedText
    if 2 < maxScore then detectedLang else cur

/-! ## Specification-side definitions

These restate parts of the specification in its own words, to be compared
with the definitions embedded from the source. -/

/-- The occurrence-count part of the score of one query word (no phrase
bonus): title weight 10, keyword weight 5, content weight 1, plus the
translation bonus. -/
def termOccurrenceScore (trans : Option TransDict) (language : List Char)
    (titleText contentText keywordText : List Char) (word : List Char) : Nat :=
  countOcc word titleText * 10 + countOcc word keywordText * 5 +
    countOcc word contentText * 1 + translationBonus trans language word

/-- The exact-phrase bonus as the specification describes one application
of it: for a multi-term query, +20 when the joined phrase occurs in the
title and +10 when it occurs in the content. -/
def phraseBonusValue (titleText contentText : List Char)
    (queryWords : List (List Char)) : Nat :=
  if 1 < queryWords.length then
    (if includesL titleText (joinWordsL queryWords) then 20 else 0) +
      (if includesL contentText (joinWordsL queryWords) then 10 else 0)
  else 0

/-- The scorer as the claim states it: per-term occurrence scores plus
ONE exact-phrase bonus for the whole query. -/
def calculateRelevanceScoreOncePerQuery (trans : Option TransDict)
    (article : Article) (queryWords : List (List Char)) (language : List Char) :
    Except Unit Nat := do
  let titleText := lowL article.title
  let contentText := lowL article.content
  let keywordText := lowL (joinWordsL article.keywords)
  let base ← queryWords.foldlM
    (fun score w => do
      let t ← jsRegexCount w titleText
      let k ← jsRegexCount w keywordText
      let c ← jsRegexCount w contentText
      return score + t * 10 + k * 5 + c * 1 + translationBonus trans language w)
    0
  return base + phraseBonusValue titleText contentText queryWords

/-- Diacritic component of the detection score as the claim states it:
the number of occurrences of the language-specific characters. -/
def diacriticOccurrences (lang : List Char) (text : List Char) : Nat :=
  ((languagePatterns lang).chars.map (fun c => text.count c)).sum

/-- Vocabulary component of the detection score as implemented: the
number of domain-vocabulary words contained in the text as substrings. -/
def vocabSubstringHits (lang : List Char) (text : List Char) : Nat :=
  ((languagePatterns lang).words.filter (fun w => includesL text w)).length

/-- Stop-word component of the detection score: the number of text tokens
that equal a stop word of the language. -/
def stopTokenHits (lang : List Char) (text : List Char) : Nat :=
  ((splitWsL text).filter
    (fun tw => (languagePatterns lang).commonWords.any (fun cw => cw = tw))).length

/-- The maximum language-detection score over the supported languages. -/
def maxLangScore (text : List Char) : Nat :=
  ((supportedLanguages.map (fun l => langScore l text)).foldr max 0)

/-- The vocabulary component as the claim states it — a WHOLE-WORD match:
the number of domain-vocabulary words occurring as a token of the text. -/
def vocabWholeWordHits (lang : List Char) (text : List Char) : Nat :=
  ((languagePatterns lang).words.filter
    (fun w => (splitWsL text).any (fun tw => tw = w))).length

/-- Language detection as the claim states it: identical to
`detectLanguage` except that the vocabulary component requires whole-word
matches. -/
def langScoreWholeWord (lang : List Char) (normalizedText : List Char) : Nat :=
  let p := languagePatterns lang
  let charScore := p.chars.foldl (fun s c => s + countOcc [c] normalizedText * 10) 0
  let wordsScore := p.words.foldl
    (fun s w => if (splitWsL normalizedText).any (fun tw => tw = w) then s + 5 else s)
    charScore
  (splitWsL normalizedText).foldl
    (fun s tw => if p.commonWords.any (fun cw => cw = tw) then s + 1 else s) wordsScore

/-- The whole-word variant of `pickDetected`. -/
def pickDetectedWholeWord (cur : List Char) (normalizedText : List Char) :
    List Char × Nat :=
  supportedLanguages.foldl
    (fun acc lang =>
      if acc.2 < langScoreWholeWord lang normalizedText then
        (lang, langScoreWholeWord lang normalizedText)
      else acc)
    (cur, 0)

/-- The whole-word variant of `detectLanguage` (the claim as stated). -/
def detectLanguageWholeWord (cur : List Char) (text : List Char) : List Char :=
  if text = [] ∨ (trimL text).length < 3 then cur
  else
    let normalizedText := trimL (lowL text)
    let (detectedLang, maxScore) := pickDetectedWholeWord cur normalizedText
    if 2 < maxScore then detectedLang else cur

/-! ## Projections used in the statements -/

/-- `total` and `hasMore` of a search outcome, `none` on a thrown error. -/
def envTotalHasMore (r : Except Unit (SearchEnvelope × DB)) : Option (Nat × Bool) :=
  r.toOption.map (fun x => (x.1.total, x.1.hasMore))

/-- The result list of a search outcome, `none` on a thrown error. -/
def envResults (r : Except Unit (SearchEnvelope × DB)) : Option (List SearchResult) :=
  r.toOption.map (fun x => x.1.results)

/-- The corpus array after a search call, `none` on a thrown error. -/
def dbArticlesAfter (r : Except Unit (SearchEnvelope × DB)) : Option (List Article) :=
  r.toOption.map (fun x => x.2.articles)

/-! ## Concrete corpora and parameters used for evaluations -/

/-- A minimal article; fields default to an `en` article with base score 1
and no feedback. -/
def mkArticle (id title content : List Char) : Article :=
  ⟨id, title, content, "c".data, [], "en".data, none, 1, ⟨0, 0⟩⟩

/-- Three articles whose titles all contain the query word `zakon`. -/
def dbPaging : DB :=
  DB.init
    [mkArticle "a1".data "zakon".data "x".data,
     mkArticle "a2".data "zakon".data "x".data,
     mkArticle "a3".data "zakon".data "x".data] none

/-- `search('zakon')` with `limit = 2, offset = 0`. -/
def pPaging : SearchParams := ⟨"zakon".data, "all".data, "hr".data, 2, 0⟩

/-- Two sibling articles: the same original (`originalId = art1`) in
Croatian and in English, both matching the word `ugovor`. -/
def dbSiblings : DB :=
  DB.init
    [{ mkArticle "a-hr".data "ugovor".data "x".data with
        language := "hr".data, originalId := some "art1".data },
     { mkArticle "a-en".data "ugovor".data "x".data with
        language := "en".data, originalId := some "art1".data }] none

/-- The article exhibiting the per-term phrase bonus: the two-word query
`radno vrijeme` occurs verbatim in the title. -/
def artPhrase : Article := mkArticle "p1".data "radno vrijeme zakon".data "x".data

/-- A one-article corpus for the regex-throw evaluation. -/
def dbThrow : DB := DB.init [mkArticle "t1".data "posao".data "rad".data] none

/-- A corpus of two articles stored in ascending relevance order, so that
the in-place sort of the empty-query path visibly reorders it. -/
def dbUnsorted : DB :=
  DB.init
    [{ mkArticle "lo".data "alpha".data "x".data with relevanceScore := 1 },
     { mkArticle "hi".data "beta".data "x".data with relevanceScore := 2 }] none


/-! ## Helper lemmas -/

theorem insertStable_length {α : Type} (le : α → α → Bool) (x : α) :
    ∀ l : List α, (insertStable le x l).length = l.length + 1 := by
  intro l
  induction l with
  | nil => rfl
  | cons y ys ih =>
    unfold insertStable
    by_cases h : le y x = true
    · simp [h, ih]
    · simp [h]

theorem sortStable_length {α : Type} (le : α → α → Bool) (l : List α) :
    (sortStable le l).length = l.length := by
  suffices h : ∀ acc : List α,
      (l.foldl (fun acc x => insertStable le x acc) acc).length = acc.length + l.length by
    simpa using h []
  induction l with
  | nil => intro acc; simp
  | cons x xs ih =>
    intro acc
    rw [List.foldl_cons, ih, insertStable_length]
    simp only [List.length_cons]
    omega

/-! ## C10 -/

/-- C10: calling `updateRelevanceScore` with an article id that resolves
to no article of the corpus is a complete no-op — the state (articles,
feedback counters, scores, query cache) is returned unchanged and nothing
is thrown. -/
theorem updateRelevanceScore_unknown_id_noop
    (db : DB) (articleId : List Char) (isHelpful : Bool)
    (h : ∀ a ∈ db.articles, a.id ≠ articleId) :
    updateRelevanceScore db articleId isHelpful = db := by
  unfold updateRelevanceScore
  rw [if_neg]
  intro hc
  rw [List.any_eq_true] at hc
  obtain ⟨a, ha, he⟩ := hc
  exact h a ha (by simpa using he)

/-- A one-article corpus used to exercise `updateRelevanceScore`. -/
def dbFeedback : DB := DB.init [mkArticle "f1".data "t".data "x".data] none

/-- Witness for C10 at an id absent from the corpus. -/
theorem updateRelevanceScore_unknown_id_noop_witness :
    (∀ a ∈ dbFeedback.articles, a.id ≠ "zz".data) ∧
    updateRelevanceScore dbFeedback "zz".data true = dbFeedback :=
  ⟨by decide, updateRelevanceScore_unknown_id_noop dbFeedback "zz".data true (by decide)⟩

/-! ## C6 -/

/-- C6: when `updateRelevanceScore` is called with a known article id, the
query cache is cleared in full, so any subsequent `searchArticles` call —
in particular one with parameters identical to an earlier call — cannot be
served from the cache and is recomputed against the mutated corpus. -/
theorem updateRelevanceScore_clears_cache_forces_fresh_search
    (db : DB) (articleId : List Char) (isHelpful : Bool)
    (h : ∃ a ∈ db.articles, a.id = articleId) :
    (updateRelevanceScore db articleId isHelpful).searchCache = [] ∧
    ∀ p : SearchParams,
      searchArticles (updateRelevanceScore db articleId isHelpful) p =
        computeSearch (updateRelevanceScore db articleId isHelpful) p := by
  have hany : db.articles.any (fun a => a.id = articleId) = true := by
    rw [List.any_eq_true]
    obtain ⟨a, ha, he⟩ := h
    exact ⟨a, ha, by simpa using he⟩
  have hcache : (updateRelevanceScore db articleId isHelpful).searchCache = [] := by
    unfold updateRelevanceScore
    rw [if_pos hany]
  refine ⟨hcache, fun p => ?_⟩
  unfold searchArticles
  rw [hcache]
  rfl

/-- Witness for C6 on the one-article corpus. -/
theorem updateRelevanceScore_clears_cache_forces_fresh_search_witness :
    (∃ a ∈ dbFeedback.articles, a.id = "f1".data) ∧
    (updateRelevanceScore dbFeedback "f1".data true).searchCache = [] ∧
    searchArticles (updateRelevanceScore dbFeedback "f1".data true)
        ⟨"t".data, "all".data, "hr".data, 10, 0⟩ =
      computeSearch (updateRelevanceScore dbFeedback "f1".data true)
        ⟨"t".data, "all".data, "hr".data, 10, 0⟩ :=
  ⟨by decide,
   (updateRelevanceScore_clears_cache_forces_fresh_search dbFeedback "f1".data true
      ⟨mkArticle "f1".data "t".data "x".data, by decide, by decide⟩).1,
   (updateRelevanceScore_clears_cache_forces_fresh_search dbFeedback "f1".data true
      ⟨mkArticle "f1".data "t".data "x".data, by decide, by decide⟩).2 _⟩

/-! ## C2 -/

theorem jsAdd_none_right (x : JSNum) : jsAdd x none = none := by
  cases x <;> rfl

theorem decayedWeight_eq_none (now : ℚ) (fb : WeightedFeedback) :
    decayedWeight now fb = none := rfl

theorem foldl_decayedWeight_none (now : ℚ) :
    ∀ (l : List WeightedFeedback),
      List.foldl (fun acc fb => jsAdd acc (decayedWeight now fb)) none l = none := by
  intro l
  induction l with
  | nil => rfl
  | cons x xs ih => simpa [jsAdd_none_right] using ih

theorem performAdaptiveLearning_no_update (now : ℚ) (l : List WeightedFeedback)
    (h : l ≠ []) : performAdaptiveLearning now l = none := by
  unfold performAdaptiveLearning
  have htw : List.foldl (fun acc fb => jsAdd acc (decayedWeight now fb)) (some 0) l = none := by
    cases l with
    | nil => exact absurd rfl h
    | cons x xs =>
      rw [List.foldl_cons, decayedWeight_eq_none, jsAdd_none_right]
      exact foldl_decayedWeight_none now xs
  rw [htw]
  rfl

theorem updateArticleScoring_adaptive_unchanged (now : ℚ) (st : ScoringState)
    (fb : FeedbackEvent) :
    (updateArticleScoring now st fb).adaptiveScores = st.adaptiveScores := by
  unfold updateArticleScoring
  set hist := (assocLookup st.articleFeedback fb.articleId).getD [] ++
    [(⟨if fb.isHelpful then 1 else -1, fb.confidence, fb.context⟩ : WeightedFeedback)] with hh
  have hne : hist ≠ [] := by
    simp [hh]
  by_cases ht : minFeedbackThreshold ≤ hist.length
  · rw [if_pos ht, performAdaptiveLearning_no_update now hist hne]
  · rw [if_neg ht]

/-- Three helpful feedback events for one article with mid-range
confidence, timestamps one second apart. -/
def threeHelpfulEvents : List FeedbackEvent :=
  [⟨"f1".data, true, 1/2, 1000, none⟩,
   ⟨"f1".data, true, 1/2, 2000, none⟩,
   ⟨"f1".data, true, 1/2, 3000, none⟩]

/-- C2: the claimed adaptive-score recomputation never happens.  The
stored `weightedFeedback` records carry no `timestamp` property, so every
decayed weight in `performAdaptiveLearning` is
`confidence * 0.95 ^ ((Date.now() - undefined) / day) = NaN`, the
`totalWeight > 0` guard is false, and `adaptiveScores` is never written:
processing any feedback event — in particular the third and later ones,
which reach the `minFeedbackThreshold` branch — leaves `adaptiveScores`
unchanged, as the run of three helpful events shows concretely. -/
theorem performAdaptiveLearning_never_updates_adaptiveScores :
    (∀ (now : ℚ) (st : ScoringState) (fb : FeedbackEvent),
      (updateArticleScoring now st fb).adaptiveScores = st.adaptiveScores) ∧
    (threeHelpfulEvents.foldl (updateArticleScoring 1000000) ⟨[], []⟩).adaptiveScores = [] := by
  refine ⟨updateArticleScoring_adaptive_unchanged, ?_⟩
  simp only [threeHelpfulEvents, List.foldl_cons, List.foldl_nil,
    updateArticleScoring_adaptive_unchanged]

/-! ## C7 -/

theorem applyFeedback_score (a : Article) (b : Bool) :
    (applyFeedback a b).relevanceScore =
      1 + (((applyFeedback a b).userFeedback.helpful : ℚ) /
        (((applyFeedback a b).userFeedback.helpful + (applyFeedback a b).userFeedback.notHelpful : Nat) : ℚ) * 2 - 1) := by
  cases b <;>
    · simp only [applyFeedback, Bool.false_eq_true, if_false, if_true]
      rw [if_pos (by omega)]

theorem ratio_score_bounds (h' n' : Nat) (hpos : 0 < h' + n') :
    ((1 : ℚ) + ((h' : ℚ) / ((h' + n' : Nat) : ℚ) * 2 - 1) =
      1 + ((h' : ℚ) / ((h' : ℚ) + (n' : ℚ)) * 2 - 1)) ∧
    (0 : ℚ) ≤ 1 + ((h' : ℚ) / ((h' + n' : Nat) : ℚ) * 2 - 1) ∧
    (1 : ℚ) + ((h' : ℚ) / ((h' + n' : Nat) : ℚ) * 2 - 1) ≤ 3 := by
  have hden : (0 : ℚ) < (h' : ℚ) + (n' : ℚ) := by exact_mod_cast hpos
  have hr0 : (0 : ℚ) ≤ (h' : ℚ) / ((h' : ℚ) + (n' : ℚ)) :=
    div_nonneg (by positivity) (le_of_lt hden)
  have hr1 : (h' : ℚ) / ((h' : ℚ) + (n' : ℚ)) ≤ 1 := by
    rw [div_le_one hden]
    have hn : (0 : ℚ) ≤ (n' : ℚ) := by positivity
    linarith
  have hcast : ((h' + n' : Nat) : ℚ) = (h' : ℚ) + (n' : ℚ) := by push_cast; ring
  rw [hcast]
  exact ⟨rfl, by linarith, by linarith⟩

theorem applyFeedback_pos_total (a : Article) (b : Bool) :
    0 < (applyFeedback a b).userFeedback.helpful + (applyFeedback a b).userFeedback.notHelpful := by
  cases b <;> simp [applyFeedback]

/-- C7: after any feedback ingestion for a known article, its
`relevanceScore` equals `1.0 + (helpfulRatio * 2 - 1)` computed from the
updated counters, and the resulting value lies in `[0, 3]` (indeed in
`[0, 2]`). -/
theorem relevanceScore_formula_and_bounds
    (db : DB) (articleId : List Char) (isHelpful : Bool) (a' : Article)
    (hmem : a' ∈ (updateRelevanceScore db articleId isHelpful).articles)
    (hid : a'.id = articleId)
    (hknown : ∃ a ∈ db.articles, a.id = articleId) :
    a'.relevanceScore =
      1 + ((a'.userFeedback.helpful : ℚ) /
        ((a'.userFeedback.helpful : ℚ) + (a'.userFeedback.notHelpful : ℚ)) * 2 - 1) ∧
    0 ≤ a'.relevanceScore ∧ a'.relevanceScore ≤ 3 := by
  have hany : db.articles.any (fun a => a.id = articleId) = true := by
    rw [List.any_eq_true]
    obtain ⟨a, ha, he⟩ := hknown
    exact ⟨a, ha, by simpa using he⟩
  rw [updateRelevanceScore, if_pos hany] at hmem
  simp only [List.mem_map] at hmem
  obtain ⟨a, -, hfa⟩ := hmem
  by_cases hcase : a.id = articleId
  · rw [if_pos hcase] at hfa
    subst hfa
    have hsc := applyFeedback_score a isHelpful
    have hkey := ratio_score_bounds (applyFeedback a isHelpful).userFeedback.helpful
      (applyFeedback a isHelpful).userFeedback.notHelpful (applyFeedback_pos_total a isHelpful)
    refine ⟨?_, ?_, ?_⟩
    · rw [hsc]; exact hkey.1
    · rw [hsc]; exact hkey.2.1
    · rw [hsc]; exact hkey.2.2
  · rw [if_neg hcase] at hfa
    subst hfa
    exact absurd hid hcase

/-- Witness for C7: one helpful feedback on the one-article corpus. -/
theorem relevanceScore_formula_and_bounds_witness :
    (applyFeedback (mkArticle "f1".data "t".data "x".data) true
        ∈ (updateRelevanceScore dbFeedback "f1".data true).articles) ∧
    ((applyFeedback (mkArticle "f1".data "t".data "x".data) true).id = "f1".data) ∧
    (∃ a ∈ dbFeedback.articles, a.id = "f1".data) ∧
    ((applyFeedback (mkArticle "f1".data "t".data "x".data) true).relevanceScore =
      1 + (((applyFeedback (mkArticle "f1".data "t".data "x".data) true).userFeedback.helpful : ℚ) /
        (((applyFeedback (mkArticle "f1".data "t".data "x".data) true).userFeedback.helpful : ℚ) +
          ((applyFeedback (mkArticle "f1".data "t".data "x".data) true).userFeedback.notHelpful : ℚ)) * 2 - 1) ∧
      0 ≤ (applyFeedback (mkArticle "f1".data "t".data "x".data) true).relevanceScore ∧
      (applyFeedback (mkArticle "f1".data "t".data "x".data) true).relevanceScore ≤ 3) := by
  have hmem : applyFeedback (mkArticle "f1".data "t".data "x".data) true
      ∈ (updateRelevanceScore dbFeedback "f1".data true).articles := by
    simp [updateRelevanceScore, dbFeedback, DB.init, mkArticle]
  have hid : (applyFeedback (mkArticle "f1".data "t".data "x".data) true).id = "f1".data := by
    decide
  have hknown : ∃ a ∈ dbFeedback.articles, a.id = "f1".data := by decide
  exact ⟨hmem, hid, hknown,
    relevanceScore_formula_and_bounds dbFeedback "f1".data true _ hmem hid hknown⟩

/-! ## C9 -/

/-- C9: a cache-miss `searchArticles` call whose trimmed query is empty
and whose category is `'all'` binds the shared corpus array itself and
sorts it in place by descending `relevanceScore`: afterwards the stored
article sequence is the stably sorted permutation of the previous one,
not the original corpus order. -/
theorem searchArticles_empty_query_sorts_corpus_in_place
    (db : DB) (query lang : List Char) (limit offset : Nat)
    (hq : trimL query = [])
    (hc : assocLookup db.searchCache
      (cacheKey ⟨query, "all".data, lang, limit, offset⟩) = none) :
    dbArticlesAfter (searchArticles db ⟨query, "all".data, lang, limit, offset⟩) =
      some (sortStable relevLe db.articles) := by
  unfold searchArticles
  rw [hc]
  unfold computeSearch
  simp only [if_pos rfl]
  rw [if_pos hq]
  rfl

/-- `search('', {category: 'all'})` on the two-article corpus stored in
ascending score order. -/
def pEmptyAll : SearchParams := ⟨"".data, "all".data, "hr".data, 10, 0⟩

/-- Witness for C9: the corpus stored in ascending relevance order comes
back reordered (ids `lo, hi` become `hi, lo`). -/
theorem searchArticles_empty_query_sorts_corpus_in_place_witness :
    trimL "".data = [] ∧
    assocLookup dbUnsorted.searchCache (cacheKey pEmptyAll) = none ∧
    dbArticlesAfter (searchArticles dbUnsorted pEmptyAll) =
      some (sortStable relevLe dbUnsorted.articles) ∧
    (sortStable relevLe dbUnsorted.articles).map Article.id = ["hi".data, "lo".data] ∧
    dbUnsorted.articles.map Article.id = ["lo".data, "hi".data] := by
  refine ⟨rfl, by decide, ?_, ?_, by decide⟩
  · exact searchArticles_empty_query_sorts_corpus_in_place dbUnsorted "".data "hr".data 10 0
      rfl (by decide)
  · simp only [dbUnsorted, DB.init, mkArticle, sortStable, insertStable, List.foldl]
    norm_num [relevLe]

/-! ## C4 -/

theorem parenScanErr_safe (l : List Char) (h : regexSafe l = true) :
    ∀ d, parenScanErr l d = decide (d ≠ 0) := by
  induction l with
  | nil => intro d; rfl
  | cons c rest ih =>
    intro d
    rw [regexSafe, List.all_cons, Bool.and_eq_true] at h
    obtain ⟨hc, hrest⟩ := h
    rw [Bool.not_eq_true'] at hc
    have h1 : c ≠ '\\' := by intro he; rw [he] at hc; exact absurd hc (by decide)
    have h2 : c ≠ '(' := by intro he; rw [he] at hc; exact absurd hc (by decide)
    have h3 : c ≠ ')' := by intro he; rw [he] at hc; exact absurd hc (by decide)
    rw [parenScanErr.eq_def]
    dsimp only
    rw [if_neg h1, if_neg h2, if_neg h3]
    exact ih hrest d

theorem jsRegexCount_safe (pat text : List Char) (h : regexSafe pat = true) :
    jsRegexCount pat text = .ok (countOcc pat text) := by
  unfold jsRegexCount
  rw [parenScanErr_safe pat h 0]
  rfl

theorem exceptBindOk {α β : Type} (a : α) (f : α → Except Unit β) :
    (Except.ok a >>= f) = f a := rfl

theorem exceptPureEqOk {α : Type} (a : α) : (pure a : Except Unit α) = Except.ok a := rfl

theorem wordScore_safe (trans : Option TransDict) (language : List Char)
    (titleText contentText keywordText : List Char)
    (queryWords : List (List Char)) (w : List Char) (h : regexSafe w = true) :
    wordScore trans language titleText contentText keywordText queryWords w =
      .ok (termOccurrenceScore trans language titleText contentText keywordText w +
        phraseBonusValue titleText contentText queryWords) := by
  unfold wordScore
  simp only [jsRegexCount_safe _ _ h, bind, Except.bind, pure, Except.pure, Except.ok.injEq]
  unfold termOccurrenceScore phraseBonusValue
  split_ifs <;> omega

theorem foldlM_wordScore_safe (trans : Option TransDict) (language : List Char)
    (titleText contentText keywordText : List Char) (queryWords : List (List Char)) :
    ∀ (l : List (List Char)) (acc : Nat), (∀ w ∈ l, regexSafe w = true) →
      (l.foldlM (fun score w => do
          let s ← wordScore trans language titleText contentText keywordText queryWords w
          return score + s) acc : Except Unit Nat) =
        .ok (acc + (l.map (termOccurrenceScore trans language titleText contentText keywordText)).sum +
          l.length * phraseBonusValue titleText contentText queryWords) := by
  intro l
  induction l with
  | nil => intro acc _; simp [exceptPureEqOk]
  | cons w ws ih =>
    intro acc hsafe
    rw [List.foldlM_cons, wordScore_safe trans language titleText contentText keywordText
      queryWords w (hsafe w (List.mem_cons_self w ws))]
    rw [exceptBindOk, exceptPureEqOk, exceptBindOk]
    rw [ih (acc + (termOccurrenceScore trans language titleText contentText keywordText w +
      phraseBonusValue titleText contentText queryWords))
      (fun x hx => hsafe x (List.mem_cons_of_mem w hx))]
    simp only [Except.ok.injEq, List.map_cons, List.sum_cons, List.length_cons]
    ring

/-- C4 (amended): for metacharacter-free query words, the scorer adds the
exact-phrase bonus once per query TERM, not once per query: a `k`-term
query whose joined phrase occurs in the title/content receives `k` times
the `+20` / `+10` bonus, on top of the per-term occurrence scores. -/
theorem calculateRelevanceScore_phrase_bonus_once_per_term
    (trans : Option TransDict) (article : Article) (queryWords : List (List Char))
    (language : List Char) (h : ∀ w ∈ queryWords, regexSafe w = true) :
    calculateRelevanceScore trans article queryWords language =
      .ok ((queryWords.map (termOccurrenceScore trans language (lowL article.title)
            (lowL article.content) (lowL (joinWordsL article.keywords)))).sum +
        queryWords.length *
          phraseBonusValue (lowL article.title) (lowL article.content) queryWords) := by
  unfold calculateRelevanceScore
  rw [foldlM_wordScore_safe trans language (lowL article.title) (lowL article.content)
    (lowL (joinWordsL article.keywords)) queryWords queryWords 0 h]
  simp

/-- C4 (counterexample): on the two-term query `radno vrijeme` against an
article whose title contains the exact phrase, the engine's score is 60 —
the `+20` title-phrase bonus is applied once per term — while the claimed
once-per-query scoring yields 40. -/
theorem calculateRelevanceScore_phrase_bonus_not_once_per_query :
    calculateRelevanceScore none artPhrase ["radno".data, "vrijeme".data] "hr".data =
      .ok 60 ∧
    calculateRelevanceScoreOncePerQuery none artPhrase ["radno".data, "vrijeme".data]
      "hr".data = .ok 40 ∧
    calculateRelevanceScore none artPhrase ["radno".data, "vrijeme".data] "hr".data ≠
      calculateRelevanceScoreOncePerQuery none artPhrase ["radno".data, "vrijeme".data]
        "hr".data := by
  refine ⟨rfl, rfl, ?_⟩
  intro hcontra
  rw [show calculateRelevanceScore none artPhrase ["radno".data, "vrijeme".data] "hr".data =
    .ok 60 from rfl] at hcontra
  rw [show calculateRelevanceScoreOncePerQuery none artPhrase ["radno".data, "vrijeme".data]
    "hr".data = .ok 40 from rfl] at hcontra
  exact absurd (Except.ok.inj hcontra) (by decide)

/-- Witness for C4 on the `radno vrijeme` article. -/
theorem calculateRelevanceScore_phrase_bonus_once_per_term_witness :
    (∀ w ∈ [("radno".data : List Char), "vrijeme".data], regexSafe w = true) ∧
    calculateRelevanceScore none artPhrase ["radno".data, "vrijeme".data] "hr".data =
      .ok (((["radno".data, "vrijeme".data] : List (List Char)).map
          (termOccurrenceScore none "hr".data (lowL artPhrase.title)
            (lowL artPhrase.content) (lowL (joinWordsL artPhrase.keywords)))).sum +
        (["radno".data, "vrijeme".data] : List (List Char)).length *
          phraseBonusValue (lowL artPhrase.title) (lowL artPhrase.content)
            ["radno".data, "vrijeme".data]) :=
  ⟨by decide,
   calculateRelevanceScore_phrase_bonus_once_per_term none artPhrase
     ["radno".data, "vrijeme".data] "hr".data (by decide)⟩

/-! ## C5 -/

theorem includesL_iff_contiguous (t s : List Char) : includesL t s = true ↔ s <:+: t := by
  induction t with
  | nil =>
    rw [includesL]
    simp [List.isPrefixOf_iff_prefix, List.prefix_nil, List.infix_nil]
  | cons c rest ih =>
    rw [includesL, Bool.or_eq_true, List.isPrefixOf_iff_prefix, List.infix_cons_iff, ih]

theorem countOccAux_pos_of_contiguous (pat : List Char) (hne : pat ≠ []) :
    ∀ (text : List Char) (fuel : Nat), text.length ≤ fuel → pat <:+: text →
      0 < countOccAux pat text fuel := by
  intro text
  induction text with
  | nil =>
    intro fuel _ hinf
    exact absurd (List.infix_nil.mp hinf) hne
  | cons c rest ih =>
    intro fuel hlen hinf
    cases fuel with
    | zero => simp at hlen
    | succ f =>
      rw [countOccAux]
      by_cases hp : pat.isPrefixOf (c :: rest) = true
      · rw [if_pos hp]; omega
      · rw [if_neg hp]
        rcases List.infix_cons_iff.mp hinf with hpre | hinf'
        · exact absurd (List.isPrefixOf_iff_prefix.mpr hpre) hp
        · exact ih f (by simpa using Nat.le_of_succ_le_succ (by simpa using hlen)) hinf'

theorem countOcc_pos_of_contiguous (pat text : List Char) (hne : pat ≠ [])
    (hinf : pat <:+: text) : 0 < countOcc pat text := by
  rw [countOcc, if_neg hne]
  exact countOccAux_pos_of_contiguous pat hne text text.length le_rfl hinf

theorem mem_contig_joinWordsL : ∀ (ws : List (List Char)) (w : List Char),
    w ∈ ws → w <:+: joinWordsL ws := by
  intro ws
  induction ws with
  | nil => intro w hw; simp at hw
  | cons x xs ih =>
    intro w hw
    cases xs with
    | nil =>
      rw [List.mem_singleton] at hw
      subst hw
      exact List.infix_rfl
    | cons y ys =>
      rw [joinWordsL]
      rcases List.mem_cons.mp hw with hx | hmem
      · subst hx
        exact (List.prefix_append w (' ' :: joinWordsL (y :: ys))).isInfix
      · refine (ih w hmem).trans ?_
        have : ' ' :: joinWordsL (y :: ys) = [' '] ++ joinWordsL (y :: ys) := rfl
        rw [this, ← List.append_assoc]
        exact (List.suffix_append (x ++ [' ']) (joinWordsL (y :: ys))).isInfix

theorem phraseBonusValue_zero (titleText contentText : List Char)
    (ws : List (List Char)) (w : List Char) (hw : w ∈ ws)
    (h0t : countOcc w titleText = 0) (h0c : countOcc w contentText = 0) :
    phraseBonusValue titleText contentText ws = 0 := by
  have hne : w ≠ [] := by
    intro he
    rw [he, countOcc, if_pos rfl] at h0t
    omega
  have hinfp : w <:+: joinWordsL ws := mem_contig_joinWordsL ws w hw
  unfold phraseBonusValue
  by_cases hlen : 1 < ws.length
  · rw [if_pos hlen]
    have ht : includesL titleText (joinWordsL ws) = false := by
      rw [Bool.eq_false_iff]
      intro hinc
      have : w <:+: titleText := hinfp.trans ((includesL_iff_contiguous _ _).mp hinc)
      have := countOcc_pos_of_contiguous w titleText hne this
      omega
    have hc : includesL contentText (joinWordsL ws) = false := by
      rw [Bool.eq_false_iff]
      intro hinc
      have : w <:+: contentText := hinfp.trans ((includesL_iff_contiguous _ _).mp hinc)
      have := countOcc_pos_of_contiguous w contentText hne this
      omega
    rw [ht, hc]
    simp
  · exact if_neg hlen

theorem calculateRelevanceScore_zero (trans : Option TransDict) (article : Article)
    (ws : List (List Char)) (language : List Char)
    (hsafe : ∀ w ∈ ws, regexSafe w = true)
    (h0 : ∀ w ∈ ws,
      countOcc w (lowL article.title) = 0 ∧
      countOcc w (lowL (joinWordsL article.keywords)) = 0 ∧
      countOcc w (lowL article.content) = 0 ∧
      translationBonus trans language w = 0) :
    calculateRelevanceScore trans article ws language = .ok 0 := by
  unfold calculateRelevanceScore
  rw [foldlM_wordScore_safe trans language (lowL article.title) (lowL article.content)
    (lowL (joinWordsL article.keywords)) ws ws 0 hsafe]
  have hsum : (ws.map (termOccurrenceScore trans language (lowL article.title)
      (lowL article.content) (lowL (joinWordsL article.keywords)))).sum = 0 := by
    rw [List.sum_eq_zero]
    intro x hx
    rw [List.mem_map] at hx
    obtain ⟨w, hw, hxw⟩ := hx
    obtain ⟨h1, h2, h3, h4⟩ := h0 w hw
    rw [← hxw]
    unfold termOccurrenceScore
    rw [h1, h2, h3, h4]
    rfl
  have hpb : ws.length * phraseBonusValue (lowL article.title) (lowL article.content) ws = 0 := by
    cases ws with
    | nil => rfl
    | cons w rest =>
      obtain ⟨h1, -, h3, -⟩ := h0 w (List.mem_cons_self w rest)
      rw [phraseBonusValue_zero (lowL article.title) (lowL article.content) (w :: rest) w
        (List.mem_cons_self w rest) h1 h3]
      simp
  rw [hsum, hpb]

theorem foldlM_score_zero (trans : Option TransDict) (ws : List (List Char))
    (language : List Char) :
    ∀ (l : List Article) (acc : List SearchResult),
      (∀ a ∈ l, calculateRelevanceScore trans a ws language = .ok 0) →
      (l.foldlM (fun acc article => do
          let score ← calculateRelevanceScore trans article ws language
          return if 0 < score then acc ++ [⟨article, some score⟩] else acc) acc :
        Except Unit (List SearchResult)) = .ok acc := by
  intro l
  induction l with
  | nil => intro acc _; rfl
  | cons a rest ih =>
    intro acc h0
    rw [List.foldlM_cons, h0 a (List.mem_cons_self a rest), exceptBindOk]
    simpa using ih acc (fun x hx => h0 x (List.mem_cons_of_mem a hx))

theorem performTextSearch_empty (trans : Option TransDict) (articles : List Article)
    (query language : List Char)
    (hsafe : ∀ w ∈ splitWsL (trimL (lowL query)), regexSafe w = true)
    (h0 : ∀ a ∈ articles, ∀ w ∈ splitWsL (trimL (lowL query)),
      countOcc w (lowL a.title) = 0 ∧
      countOcc w (lowL (joinWordsL a.keywords)) = 0 ∧
      countOcc w (lowL a.content) = 0 ∧
      translationBonus trans language w = 0) :
    performTextSearch trans articles query language = .ok [] := by
  unfold performTextSearch
  dsimp only
  rw [foldlM_score_zero trans (splitWsL (trimL (lowL query))) language articles []
    (fun a ha => calculateRelevanceScore_zero trans a (splitWsL (trimL (lowL query)))
      language hsafe (h0 a ha))]
  rfl

/-- C5 (amended): a search whose trimmed query is non-empty, whose terms
are free of regex metacharacters and occur nowhere in any article (title,
keywords, content) nor in any translation-dictionary entry, and whose
parameter tuple is not cached, returns an empty result list with
`total = 0` and does not throw.  The metacharacter restriction is forced
by the counterexample `searchArticles_throws_on_regex_metachar_query`:
for a term that is not a valid regex (e.g. `(`), `new RegExp` throws and
the search rejects instead of returning an empty envelope. -/
theorem searchArticles_empty_on_no_match (db : DB) (p : SearchParams)
    (hq : trimL p.query ≠ [])
    (hsafe : ∀ w ∈ splitWsL (trimL (lowL p.query)), regexSafe w = true)
    (hcache : assocLookup db.searchCache (cacheKey p) = none)
    (h0 : ∀ a ∈ db.articles, ∀ w ∈ splitWsL (trimL (lowL p.query)),
      countOcc w (lowL a.title) = 0 ∧
      countOcc w (lowL (joinWordsL a.keywords)) = 0 ∧
      countOcc w (lowL a.content) = 0 ∧
      translationBonus db.translations p.language w = 0) :
    (searchArticles db p).toOption.map (fun x => (x.1.results, x.1.total)) =
      some ([], 0) := by
  unfold searchArticles
  rw [hcache]
  unfold computeSearch
  have hsub : ∀ a ∈ (if p.category = "all".data then db.articles
      else getArticlesByCategory db p.category), a ∈ db.articles := by
    intro a ha
    by_cases hcat : p.category = "all".data
    · rw [if_pos hcat] at ha; exact ha
    · rw [if_neg hcat] at ha
      unfold getArticlesByCategory at ha
      rw [List.mem_filterMap] at ha
      obtain ⟨i, -, hfind⟩ := ha
      exact List.mem_of_find?_eq_some hfind
  rw [if_neg hq]
  rw [performTextSearch_empty db.translations _ p.query p.language hsafe
    (fun a ha => h0 a (hsub a ha)), exceptBindOk, exceptPureEqOk]
  simp [jsSlice, Except.toOption]

/-- C5 (counterexample): the claim promises "never throws" for arbitrary
query strings, but searching for the single-character query `(` — whose
term matches no article — makes `new RegExp('(', 'g')` throw a
`SyntaxError` that propagates out of `searchArticles` instead of an empty
result envelope. -/
theorem searchArticles_throws_on_regex_metachar_query :
    searchArticles dbThrow ⟨"(".data, "all".data, "hr".data, 10, 0⟩ = .error () := rfl

/-- Witness for C5: the query `zzz` occurs nowhere in the one-article
corpus, so the search returns an empty envelope with `total = 0`. -/
theorem searchArticles_empty_on_no_match_witness :
    (trimL ("zzz".data : List Char) ≠ []) ∧
    (∀ w ∈ splitWsL (trimL (lowL "zzz".data)), regexSafe w = true) ∧
    (assocLookup dbThrow.searchCache
      (cacheKey ⟨"zzz".data, "all".data, "hr".data, 10, 0⟩) = none) ∧
    (∀ a ∈ dbThrow.articles, ∀ w ∈ splitWsL (trimL (lowL "zzz".data)),
      countOcc w (lowL a.title) = 0 ∧
      countOcc w (lowL (joinWordsL a.keywords)) = 0 ∧
      countOcc w (lowL a.content) = 0 ∧
      translationBonus dbThrow.translations "hr".data w = 0) ∧
    (searchArticles dbThrow ⟨"zzz".data, "all".data, "hr".data, 10, 0⟩).toOption.map
      (fun x => (x.1.results, x.1.total)) = some ([], 0) :=
  ⟨by decide, by decide, by decide, by decide,
   searchArticles_empty_on_no_match dbThrow ⟨"zzz".data, "all".data, "hr".data, 10, 0⟩
     (by decide) (by decide) (by decide) (by decide)⟩

/-! ## C8 -/

theorem countOccAux_single_count (c : Char) :
    ∀ (t : List Char) (fuel : Nat), t.length ≤ fuel →
      countOccAux [c] t fuel = t.count c := by
  intro t
  induction t with
  | nil => intro fuel _; cases fuel <;> rfl
  | cons x rest ih =>
    intro fuel hlen
    cases fuel with
    | zero => simp at hlen
    | succ f =>
      rw [countOccAux]
      have hlen' : rest.length ≤ f := by simpa using hlen
      by_cases hx : c = x
      · subst hx
        have hp : ([c] : List Char) <+: (c :: rest) := ⟨rest, rfl⟩
        rw [if_pos ((List.isPrefixOf_iff_prefix).mpr hp)]
        have hdrop : (c :: rest).drop [c].length = rest := rfl
        rw [hdrop, ih f hlen', List.count_cons_self]
        omega
      · have hpre : ¬([c].isPrefixOf (x :: rest) = true) := by
          rw [List.isPrefixOf_iff_prefix]
          intro hp
          rcases hp with ⟨t, ht⟩
          injection ht with h1 _
          exact hx h1
        rw [if_neg hpre, ih f hlen', List.count_cons_of_ne hx]

theorem countOcc_single (c : Char) (t : List Char) :
    countOcc [c] t = List.count c t := by
  rw [countOcc, if_neg (by simp)]
  exact countOccAux_single_count c t t.length le_rfl

theorem foldl_add_count {α : Type} (f : α → Nat) :
    ∀ (l : List α) (s : Nat), l.foldl (fun s x => s + f x) s = s + (l.map f).sum := by
  intro l
  induction l with
  | nil => intro s; simp
  | cons x xs ih =>
    intro s
    rw [List.foldl_cons, ih, List.map_cons, List.sum_cons]
    omega

theorem foldl_add_ite {α : Type} (p : α → Bool) (k : Nat) :
    ∀ (l : List α) (s : Nat),
      l.foldl (fun s x => if p x then s + k else s) s = s + k * (l.filter p).length := by
  intro l
  induction l with
  | nil => intro s; simp
  | cons x xs ih =>
    intro s
    rw [List.foldl_cons]
    by_cases hp : p x = true
    · rw [if_pos hp, ih, List.filter_cons_of_pos hp, List.length_cons]
      ring
    · rw [if_neg hp, ih, List.filter_cons_of_neg (by simpa using hp)]

theorem langScore_eq (lang : List Char) (t : List Char) :
    langScore lang t =
      10 * diacriticOccurrences lang t + 5 * vocabSubstringHits lang t +
        stopTokenHits lang t := by
  unfold langScore diacriticOccurrences vocabSubstringHits stopTokenHits
  dsimp only
  rw [foldl_add_count (fun c => countOcc [c] t * 10) (languagePatterns lang).chars 0,
    foldl_add_ite (fun w => includesL t w) 5 (languagePatterns lang).words,
    foldl_add_ite (fun tw => (languagePatterns lang).commonWords.any (fun cw => cw = tw)) 1
      (splitWsL t)]
  have hmap : ((languagePatterns lang).chars.map (fun c => countOcc [c] t * 10)).sum =
      10 * ((languagePatterns lang).chars.map (fun c => List.count c t)).sum := by
    induction (languagePatterns lang).chars with
    | nil => rfl
    | cons c cs ih =>
      rw [List.map_cons, List.sum_cons, ih, List.map_cons, List.sum_cons, countOcc_single]
      ring
  rw [hmap]
  ring

theorem pickDetected_fold_spec (t : List Char) :
    ∀ (langs : List (List Char)) (acc : List Char × Nat),
      (langs.foldl (fun acc lang =>
          if acc.2 < langScore lang t then (lang, langScore lang t) else acc) acc = acc ∨
        ((langs.foldl (fun acc lang =>
            if acc.2 < langScore lang t then (lang, langScore lang t) else acc) acc).1 ∈ langs ∧
         (langs.foldl (fun acc lang =>
            if acc.2 < langScore lang t then (lang, langScore lang t) else acc) acc).2 =
           langScore (langs.foldl (fun acc lang =>
            if acc.2 < langScore lang t then (lang, langScore lang t) else acc) acc).1 t)) ∧
      acc.2 ≤ (langs.foldl (fun acc lang =>
          if acc.2 < langScore lang t then (lang, langScore lang t) else acc) acc).2 ∧
      ∀ l ∈ langs, langScore l t ≤ (langs.foldl (fun acc lang =>
          if acc.2 < langScore lang t then (lang, langScore lang t) else acc) acc).2 := by
  intro langs
  induction langs with
  | nil =>
    intro acc
    refine ⟨Or.inl rfl, le_rfl, ?_⟩
    intro l hl
    simp at hl
  | cons lang rest ih =>
    intro acc
    rw [List.foldl_cons]
    set acc' := if acc.2 < langScore lang t then (lang, langScore lang t) else acc with hacc'
    obtain ⟨ih1, ih2, ih3⟩ := ih acc'
    have hacc2 : acc.2 ≤ acc'.2 := by
      rw [hacc']
      by_cases hlt : acc.2 < langScore lang t
      · rw [if_pos hlt]; exact le_of_lt hlt
      · rw [if_neg hlt]
    have hlang : langScore lang t ≤ acc'.2 := by
      rw [hacc']
      by_cases hlt : acc.2 < langScore lang t
      · rw [if_pos hlt]
      · rw [if_neg hlt]; omega
    refine ⟨?_, le_trans hacc2 ih2, ?_⟩
    · rcases ih1 with heq | ⟨hmem, hsc⟩
      · rw [heq, hacc']
        by_cases hlt : acc.2 < langScore lang t
        · right
          rw [if_pos hlt]
          exact ⟨List.mem_cons_self lang rest, rfl⟩
        · left
          rw [if_neg hlt]
      · right
        exact ⟨List.mem_cons_of_mem lang hmem, hsc⟩
    · intro l hl
      rcases List.mem_cons.mp hl with h | h
      · subst h
        exact le_trans hlang ih2
      · exact ih3 l h

theorem foldr_max_le (b : Nat) :
    ∀ (xs : List Nat), (∀ x ∈ xs, x ≤ b) → xs.foldr max 0 ≤ b := by
  intro xs
  induction xs with
  | nil => intro _; simp
  | cons x l ih =>
    intro h
    rw [List.foldr_cons]
    exact max_le (h x (List.mem_cons_self x l))
      (ih (fun y hy => h y (List.mem_cons_of_mem x hy)))

theorem le_foldr_max :
    ∀ (xs : List Nat) (x : Nat), x ∈ xs → x ≤ xs.foldr max 0 := by
  intro xs
  induction xs with
  | nil => intro x hx; simp at hx
  | cons y l ih =>
    intro x hx
    rw [List.foldr_cons]
    rcases List.mem_cons.mp hx with h | h
    · subst h; exact le_max_left x _
    · exact le_trans (ih x h) (le_max_right y _)

theorem pickDetected_max (cur t : List Char) :
    (pickDetected cur t).2 = maxLangScore t ∧
    (2 < maxLangScore t →
      (pickDetected cur t).1 ∈ supportedLanguages ∧
      langScore (pickDetected cur t).1 t = maxLangScore t) := by
  obtain ⟨h1, h2, h3⟩ := pickDetected_fold_spec t supportedLanguages (cur, 0)
  have hfold : pickDetected cur t = supportedLanguages.foldl (fun acc lang =>
      if acc.2 < langScore lang t then (lang, langScore lang t) else acc) (cur, 0) := rfl
  rw [← hfold] at h1 h2 h3
  have hle : maxLangScore t ≤ (pickDetected cur t).2 := by
    rw [maxLangScore]
    refine foldr_max_le _ _ ?_
    intro x hx
    rw [List.mem_map] at hx
    obtain ⟨l, hl, hxl⟩ := hx
    rw [← hxl]
    exact h3 l hl
  have hge : (pickDetected cur t).2 ≤ maxLangScore t := by
    rcases h1 with heq | ⟨hmem, hsc⟩
    · rw [heq]
      exact Nat.zero_le _
    · rw [hsc, maxLangScore]
      exact le_foldr_max _ _ (List.mem_map_of_mem (fun l => langScore l t) hmem)
  have heq2 : (pickDetected cur t).2 = maxLangScore t := le_antisymm hge hle
  refine ⟨heq2, fun hthr => ?_⟩
  rcases h1 with heq | ⟨hmem, hsc⟩
  · exfalso
    rw [heq] at heq2
    simp at heq2
    omega
  · exact ⟨hmem, by rw [← hsc]; exact heq2⟩

/-- C8 (amended): for an input of trimmed length at least 3, each
supported language is scored with +10 per occurrence of one of its
diacritic characters, +5 per domain-vocabulary word contained in the text
as a SUBSTRING (`normalizedText.includes(word)`, not a whole-word match),
and +1 per text token equal to one of its stop words; the detector then
returns a maximum-scoring language when the maximum exceeds 2, and keeps
the current language otherwise.  The substring reading is forced by the
counterexample `detectLanguage_substring_not_whole_word`. -/
theorem detectLanguage_scoring_and_threshold (cur text : List Char)
    (hne : text ≠ []) (hlen : ¬(trimL text).length < 3) :
    (∀ lang ∈ supportedLanguages,
      langScore lang (trimL (lowL text)) =
        10 * diacriticOccurrences lang (trimL (lowL text)) +
        5 * vocabSubstringHits lang (trimL (lowL text)) +
        stopTokenHits lang (trimL (lowL text))) ∧
    (if 2 < maxLangScore (trimL (lowL text)) then
      detectLanguage cur text ∈ supportedLanguages ∧
      langScore (detectLanguage cur text) (trimL (lowL text)) =
        maxLangScore (trimL (lowL text))
    else detectLanguage cur text = cur) := by
  refine ⟨fun lang _ => langScore_eq lang (trimL (lowL text)), ?_⟩
  have hcond : ¬(text = [] ∨ (trimL text).length < 3) := by
    intro h
    rcases h with h | h
    · exact hne h
    · exact hlen h
  have hdet : detectLanguage cur text =
      (if 2 < (pickDetected cur (trimL (lowL text))).2 then
        (pickDetected cur (trimL (lowL text))).1 else cur) := by
    rw [detectLanguage, if_neg hcond]
  obtain ⟨hm, hpick⟩ := pickDetected_max cur (trimL (lowL text))
  by_cases hthr : 2 < maxLangScore (trimL (lowL text))
  · rw [if_pos hthr]
    obtain ⟨hmem, hsc⟩ := hpick hthr
    have : detectLanguage cur text = (pickDetected cur (trimL (lowL text))).1 := by
      rw [hdet, if_pos (by rw [hm]; exact hthr)]
    rw [this]
    exact ⟨hmem, hsc⟩
  · rw [if_neg hthr]
    rw [hdet, if_neg (by rw [hm]; exact hthr)]

/-- C8 (counterexample): the input `contracting` contains the English
vocabulary word `contract` as a substring but no whole word; the engine
scores `en` with 5 > 2 and switches, while the claimed whole-word scorer
keeps the current language `hr`. -/
theorem detectLanguage_substring_not_whole_word :
    detectLanguage "hr".data "contracting".data = "en".data ∧
    detectLanguageWholeWord "hr".data "contracting".data = "hr".data := by
  constructor <;> decide

/-- Witness for C8: the text `xyz` scores 0 for every language, so the
detector keeps the current language. -/
theorem detectLanguage_scoring_and_threshold_witness :
    (("xyz".data : List Char) ≠ []) ∧ ¬(trimL "xyz".data).length < 3 ∧
    ((∀ lang ∈ supportedLanguages,
      langScore lang (trimL (lowL "xyz".data)) =
        10 * diacriticOccurrences lang (trimL (lowL "xyz".data)) +
        5 * vocabSubstringHits lang (trimL (lowL "xyz".data)) +
        stopTokenHits lang (trimL (lowL "xyz".data))) ∧
    (if 2 < maxLangScore (trimL (lowL "xyz".data)) then
      detectLanguage "hr".data "xyz".data ∈ supportedLanguages ∧
      langScore (detectLanguage "hr".data "xyz".data) (trimL (lowL "xyz".data)) =
        maxLangScore (trimL (lowL "xyz".data))
    else detectLanguage "hr".data "xyz".data = "hr".data)) :=
  ⟨by decide, by decide,
   detectLanguage_scoring_and_threshold "hr".data "xyz".data (by decide) (by decide)⟩

/-! ## C1 -/

theorem computeSearch_universal_shape (db : DB) (p : SearchParams) :
    (computeSearch db p).toOption.elim True (fun x =>
      x.1.total = x.1.results.length ∧ x.1.results.length ≤ p.limit ∧
        x.1.hasMore = false) := by
  unfold computeSearch
  by_cases hq : trimL p.query = []
  · rw [if_pos hq]
    simp only [Except.toOption, Option.elim, decide_eq_false_iff_not, not_lt]
    refine ⟨by trivial, ?_, ?_⟩ <;>
      · rw [List.length_map, jsSlice, List.length_take]
        omega
  · rw [if_neg hq]
    cases hperf : performTextSearch db.translations
        (if p.category = "all".data then db.articles else getArticlesByCategory db p.category)
        p.query p.language with
    | error e => exact trivial
    | ok l =>
      rw [exceptBindOk, exceptPureEqOk]
      simp only [Except.toOption, Option.elim, decide_eq_false_iff_not, not_lt]
      refine ⟨by trivial, ?_, ?_⟩ <;>
        · rw [jsSlice, List.length_take]
          omega

/-- C1: the envelope's `total` and `hasMore` are computed AFTER slicing.
Universally, every computed envelope satisfies `total = results.length ≤
limit`, which makes `hasMore = offset + limit < results.length` constantly
false; concretely, the query `zakon` matches all 3 articles of the paging
corpus, yet with `limit = 2, offset = 0` the engine reports `total = 2`
and `hasMore = false` where the claim requires `total = 3` and
`hasMore = true`. -/
theorem searchArticles_total_counts_sliced_page :
    (∀ (db : DB) (p : SearchParams),
      (computeSearch db p).toOption.elim True (fun x =>
        x.1.total = x.1.results.length ∧ x.1.results.length ≤ p.limit ∧
          x.1.hasMore = false)) ∧
    (performTextSearch none dbPaging.articles "zakon".data "hr".data).toOption.map
      List.length = some 3 ∧
    envTotalHasMore (searchArticles dbPaging pPaging) = some (2, false) := by
  have h : performTextSearch none dbPaging.articles "zakon".data "hr".data =
      .ok (sortStable textLe
        [⟨mkArticle "a1".data "zakon".data "x".data, some 10⟩,
         ⟨mkArticle "a2".data "zakon".data "x".data, some 10⟩,
         ⟨mkArticle "a3".data "zakon".data "x".data, some 10⟩]) := rfl
  refine ⟨computeSearch_universal_shape, ?_, ?_⟩
  · rw [h]
    simp [Except.toOption, sortStable_length]
  · have hred : searchArticles dbPaging pPaging = computeSearch dbPaging pPaging := rfl
    rw [hred]
    unfold computeSearch
    rw [if_pos (show pPaging.category = "all".data from rfl)]
    rw [if_neg (show ¬trimL pPaging.query = [] by decide)]
    have htr : dbPaging.translations = none := rfl
    have hqq : pPaging.query = "zakon".data := rfl
    have hll : pPaging.language = "hr".data := rfl
    rw [htr, hqq, hll, h, exceptBindOk, exceptPureEqOk]
    simp only [envTotalHasMore, Except.toOption, Option.map]
    have hlen : (jsSlice (sortStable textLe
        [⟨mkArticle "a1".data "zakon".data "x".data, some 10⟩,
         ⟨mkArticle "a2".data "zakon".data "x".data, some 10⟩,
         ⟨mkArticle "a3".data "zakon".data "x".data, some 10⟩])
          pPaging.offset pPaging.limit).length = 2 := by
      rw [jsSlice, List.length_take, List.length_drop, sortStable_length]
      rfl
    rw [hlen]
    rfl

/-! ## C3 -/

/-- The two sibling results as scored by the engine for the query
`ugovor`. -/
def resSiblingHr : SearchResult :=
  ⟨{ mkArticle "a-hr".data "ugovor".data "x".data with
      language := "hr".data, originalId := some "art1".data }, some 10⟩

/-- The English sibling result. -/
def resSiblingEn : SearchResult :=
  ⟨{ mkArticle "a-en".data "ugovor".data "x".data with
      language := "en".data, originalId := some "art1".data }, some 10⟩

/-- C3: in a query evaluation where articles sharing `originalId = art1`
match in TWO languages (`hr` and `en`), both returned results still carry
`crossLanguageMatch` unset (read as `false`): no code path ever assigns
the property, so the claimed "`true` exactly when more than one language
matched" fails in the only direction that can occur. -/
theorem searchResults_crossLanguageMatch_never_set :
    (envResults (searchArticles dbSiblings ⟨"ugovor".data, "all".data, "en".data, 10, 0⟩)).map
      (List.map (fun r =>
        (r.article.language, r.article.originalId, r.crossLanguageMatchRead))) =
      some [("hr".data, some "art1".data, false), ("en".data, some "art1".data, false)] := by
  have h : performTextSearch none dbSiblings.articles "ugovor".data "en".data =
      .ok (sortStable textLe [resSiblingHr, resSiblingEn]) := rfl
  have hsort : sortStable textLe [resSiblingHr, resSiblingEn] =
      [resSiblingHr, resSiblingEn] := by
    rw [sortStable, List.foldl_cons, List.foldl_cons, List.foldl_nil]
    rw [insertStable, insertStable]
    rw [if_pos ?hle]
    case hle =>
      rw [textLe]
      norm_num [resSiblingHr, resSiblingEn, mkArticle]
    rfl
  have hred : searchArticles dbSiblings ⟨"ugovor".data, "all".data, "en".data, 10, 0⟩ =
      computeSearch dbSiblings ⟨"ugovor".data, "all".data, "en".data, 10, 0⟩ := rfl
  rw [hred]
  unfold computeSearch
  rw [if_pos (show ("all".data : List Char) = "all".data from rfl)]
  rw [if_neg (show ¬trimL ("ugovor".data : List Char) = [] by decide)]
  have htr : dbSiblings.translations = none := rfl
  rw [htr, h, hsort, exceptBindOk, exceptPureEqOk]
  rfl
